import Mathlib

/-!
Shallow embedding of the benchmark driver of
`src/programs/performance/bench_event.c` (em-odp).

The embedding follows the C source function by function:

* constants `REPEAT_COUNT`, `MAX_BURST`, `MAX_EVENTS`, `ROUNDS`, `MAX_RETRY`
  mirror the `#define`s at the top of the file;
* `free_event_tbl` mirrors the event-table release loop;
* `allocate_test_events` mirrors the bounded-retry allocation loop, with the
  external allocator `em_alloc_multi` abstracted as an oracle giving the
  return value of each call;
* `parse_args_validate` mirrors the option validation at the end of
  `parse_args`;
* `pass_loop` / `run_benchmarks_model` mirror the two-pass measurement loop
  of `run_benchmarks`, with `run()` return values, measured elapsed times
  and the `exit_thread` flag abstracted as oracles indexed by invocation /
  poll counters; timing values are modelled as naturals (`uint64` diffs) and
  the averaged `double` result as an exact rational;
* `run_indef_go` mirrors `run_indef`;
* `main_status_model` mirrors the tail of `main` (exit status from
  `bench_failed`).

Loops are written fuel-indexed (one fuel unit per C loop iteration); an
`outOfFuel` outcome marks exhausted fuel and the theorems quantify over all
sufficiently large fuels.
-/

/-- `#define REPEAT_COUNT 1000` — number of API calls per test case. -/
def REPEAT_COUNT : ℕ := 1000

/-- `#define MAX_BURST 64` — maximum burst size for multi operations. -/
def MAX_BURST : ℕ := 64

/-- `#define MAX_EVENTS (REPEAT_COUNT * MAX_BURST)` — test table capacity. -/
def MAX_EVENTS : ℕ := REPEAT_COUNT * MAX_BURST

/-- `#define ROUNDS 1000u` — default rounds per test case. -/
def ROUNDS : ℕ := 1000

/-- `#define MAX_RETRY 1024` — maximum number of allocation retries. -/
def MAX_RETRY : ℕ := 1024

/-- Event handles; `EM_EVENT_UNDEF` is the invalid handle. -/
abbrev em_event_t : Type := ℕ

/-- The invalid event handle. -/
def EM_EVENT_UNDEF : em_event_t := 0

/-!  ## `free_event_tbl` (bench_event.c lines 538-546)

```c
static void free_event_tbl(em_event_t event_tbl[], int num)
{
        for (int i = 0; i < num; i++) {
                if (event_tbl[i] != EM_EVENT_UNDEF) {
                        em_free(event_tbl[i]);
                        event_tbl[i] = EM_EVENT_UNDEF;
                }
        }
}
```

The table is a list, processed for the first `num` entries; the events
passed to `em_free` are collected in order as the second component. -/
def free_event_tbl : List em_event_t → ℕ → List em_event_t × List em_event_t
  | tbl, 0 => (tbl, [])
  | [], _ + 1 => ([], [])
  | e :: rest, n + 1 =>
    let r := free_event_tbl rest n
    if e ≠ EM_EVENT_UNDEF then (EM_EVENT_UNDEF :: r.1, e :: r.2)
    else (e :: r.1, r.2)

/-! ## `allocate_test_events` (bench_event.c lines 421-442)

```c
while (num_events < num) {
        int ret;
        ret = em_alloc_multi(&event[num_events], num - num_events, size, type, pool);
        if (ret < 1) {
                num_retries++;
                if (ret < 0 || num_retries > MAX_RETRY)
                        ODPH_ABORT("Allocating test events failed\n");
                continue;
        }
        num_retries = 0;
        num_events += ret;
}
```

`alloc` gives the return value of the `call`-th `em_alloc_multi` call. -/

/-- Outcome of the `allocate_test_events` loop: normal completion with the
number of allocated events, a fatal `ODPH_ABORT` after the given number of
allocator calls, or exhausted fuel. -/
inductive AllocOutcome where
  | ok (num_events : ℕ)
  | aborted (calls : ℕ)
  | outOfFuel
deriving DecidableEq, Repr

/-- The `allocate_test_events` loop; state is (call counter, `num_events`,
`num_retries`), one fuel unit per `while` iteration. -/
def allocate_test_events (alloc : ℕ → Int) (num : ℕ) :
    ℕ → ℕ → ℕ → ℕ → AllocOutcome
  | 0, _, _, _ => .outOfFuel
  | fuel + 1, call, num_events, num_retries =>
    if num_events < num then
      let ret := alloc call
      if ret < 1 then
        let r := num_retries + 1
        if ret < 0 ∨ r > MAX_RETRY then .aborted (call + 1)
        else allocate_test_events alloc num fuel (call + 1) num_events r
      else allocate_test_events alloc num fuel (call + 1)
        (num_events + ret.toNat) 0
    else .ok num_events

/-! ## `parse_args` validation (bench_event.c lines 1404-1420) -/

/-- Command-line options (`gbl_args->opt`), as set by `parse_args`. -/
structure appl_opt where
  time : Int
  bench_idx : Int
  burst_size : Int
  event_size : Int
  rounds : ℕ
  cache_size : Int
  vector_size : Int
deriving DecidableEq, Repr

/-- Outcome of the validation at the end of `parse_args`:
`ok` (return 0), `err` (return -1), `exitFail` (`exit(EXIT_FAILURE)`). -/
inductive ParseOutcome where
  | ok
  | err
  | exitFail
deriving DecidableEq, Repr

/-- The option checks at the end of `parse_args`:

```c
if (gbl_args->opt.burst_size < 1 || gbl_args->opt.burst_size > MAX_BURST) {
        ODPH_ERR(...); exit(EXIT_FAILURE);
}
if (gbl_args->opt.rounds < 1) { ODPH_ERR(...); return -1; }
if (gbl_args->opt.bench_idx < 0 || gbl_args->opt.bench_idx > gbl_args->num_bench) {
        ODPH_ERR(...); return -1;
}
return 0;
``` -/
def parse_args_validate (opt : appl_opt) (num_bench : ℕ) : ParseOutcome :=
  if opt.burst_size < 1 ∨ opt.burst_size > (MAX_BURST : ℕ) then .exitFail
  else if opt.rounds < 1 then .err
  else if opt.bench_idx < 0 ∨ opt.bench_idx > (num_bench : ℕ) then .err
  else .ok

/-! ## Table indices used by the test bodies (C10)

Every access to the `MAX_EVENTS`-sized tables in the `run`/`init`/`term`
bodies is of one of three shapes (bench_event.c lines 405-1160):

* `tbl[i * burst_size + k]`, `i < REPEAT_COUNT`, `k < burst_size` — the
  `*_multi` loops `&tbl[i * burst_size]` with `burst_size` entries
  (e.g. `event_alloc_multi`, line 610);
* `tbl[i]`, `i < REPEAT_COUNT` — the single-event loops (e.g.
  `event_alloc`, line 583);
* `tbl[i]`, `i < REPEAT_COUNT * burst_size` — the allocate/free/init
  helpers called with `num = REPEAT_COUNT * burst_size`
  (e.g. `free_events_multi`, `init_test_events`). -/
def bench_tbl_index (burst_size n : ℕ) : Prop :=
  (∃ i k, i < REPEAT_COUNT ∧ k < burst_size ∧ n = i * burst_size + k) ∨
  (n < REPEAT_COUNT) ∨
  (n < REPEAT_COUNT * burst_size)

/-! ## The benchmark driver (`run_benchmarks`, `run_indef`)

External effects are abstracted as oracles:

* `runRet n` — return value of the `n`-th `bench->run()` invocation;
* `elapsed n` — elapsed time/cycles (`uint64` diff) measured around the
  `n`-th `run()` invocation;
* `exitFlag n` — value of `gbl_args->exit_thread` at its `n`-th atomic load.

The per-case data kept by the model is the `max_rounds` field of
`bench_info_t`; `name`/`desc` and the function pointers have no bearing on
the verified properties (the functions act through the oracles). -/

/-- `bench_info_t`, reduced to its semantically relevant field. -/
structure bench_info_t where
  max_rounds : ℕ
deriving DecidableEq, Repr

/-- The effective round ceiling of a case (bench_event.c lines 330-333):

```c
uint32_t max_rounds = args->opt.rounds;
if (bench->max_rounds && max_rounds > bench->max_rounds)
        max_rounds = bench->max_rounds;
``` -/
def effective_max_rounds (R : ℕ) (bench : bench_info_t) : ℕ :=
  if bench.max_rounds ≠ 0 ∧ R > bench.max_rounds then bench.max_rounds else R

/-- Driver state shared across passes: the oracle counters, the report lines
(1-based case index and the `double` result, modelled exactly in ℚ) printed
so far, and `gbl_args->bench_failed`. -/
structure DriverState where
  polls : ℕ
  runs : ℕ
  lines : List (ℕ × ℚ)
  bench_failed : Int
deriving DecidableEq, Repr

/-- Outcome of one pass of the inner loop of `run_benchmarks`: the loop
condition became false (`done`), `goto exit` after a failed run
(`failAbort`), `run_indef` entered for case `j` (`indef`), or fuel ran out. -/
inductive PassOutcome where
  | done (st : DriverState)
  | failAbort (st : DriverState)
  | indef (j : ℕ) (st : DriverState)
  | outOfFuel
deriving DecidableEq, Repr

/-- One pass of the inner loop of `run_benchmarks`
(bench_event.c lines 324-399):

```c
for (j = 0; j < gbl_args->num_bench && !odp_atomic_load_u32(&gbl_args->exit_thread);
     round++) {
        int ret;
        uint32_t max_rounds = args->opt.rounds;
        if (bench->max_rounds && max_rounds > bench->max_rounds)
                max_rounds = bench->max_rounds;
        if (args->opt.bench_idx) {
                if ((j + 1) != args->opt.bench_idx) { j++; continue; }
                run_indef(args, j);
                goto exit;
        }
        if (bench->init) bench->init();
        t1 = ...; ret = bench->run(); t2 = ...;
        if (!ret) {
                args->bench_failed = -1; ret = -1; goto exit;
        }
        if (bench->term) bench->term();
        total += ...;
        if (round >= max_rounds) {
                result = ((double)total) / (max_rounds * REPEAT_COUNT);
                if (i > 0) printf("[%02d] ...", j + 1, ..., result);
                j++; total = 0; round = 1;
        }
}
```

Arguments after the oracles: `pass` (outer index `i`), fuel, `j`, `round`,
`total`, state.  The `round = 1` of the advance branch is followed by the
loop update `round++`, hence the recursive call with `1 + 1`. -/
def pass_loop (benches : List bench_info_t) (R bench_idx : ℕ)
    (runRet : ℕ → Int) (elapsed : ℕ → ℕ) (exitFlag : ℕ → Bool)
    (pass : ℕ) : ℕ → ℕ → ℕ → ℕ → DriverState → PassOutcome
  | 0, _, _, _, _ => .outOfFuel
  | fuel + 1, j, round, total, st =>
    if j < benches.length then
      if exitFlag st.polls then
        .done ⟨st.polls + 1, st.runs, st.lines, st.bench_failed⟩
      else
        if bench_idx ≠ 0 then
          if j + 1 ≠ bench_idx then
            pass_loop benches R bench_idx runRet elapsed exitFlag pass
              fuel (j + 1) (round + 1) total
              ⟨st.polls + 1, st.runs, st.lines, st.bench_failed⟩
          else .indef j ⟨st.polls + 1, st.runs, st.lines, st.bench_failed⟩
        else
          if runRet st.runs = 0 then
            .failAbort ⟨st.polls + 1, st.runs + 1, st.lines, -1⟩
          else
            if round ≥ effective_max_rounds R (benches.getD j ⟨0⟩) then
              pass_loop benches R bench_idx runRet elapsed exitFlag pass
                fuel (j + 1) (1 + 1) 0
                ⟨st.polls + 1, st.runs + 1,
                 st.lines ++
                   (if pass > 0 then
                     [(j + 1, ((total + elapsed st.runs : ℕ) : ℚ) /
                       ((effective_max_rounds R (benches.getD j ⟨0⟩) *
                         REPEAT_COUNT : ℕ) : ℚ))]
                    else []),
                 st.bench_failed⟩
            else
              pass_loop benches R bench_idx runRet elapsed exitFlag pass
                fuel j (round + 1) (total + elapsed st.runs)
                ⟨st.polls + 1, st.runs + 1, st.lines, st.bench_failed⟩
    else .done st

/-- Outcome of `run_indef` (bench_event.c lines 272-295): loop left because
the exit flag was set (`cancelled` after the given number of completed
`init → run → term` cycles), `ODPH_ABORT` because a run returned false
(`abortProc`), or fuel ran out. -/
inductive IndefOutcome where
  | cancelled (cycles : ℕ) (st : DriverState)
  | abortProc (cycles : ℕ) (st : DriverState)
  | outOfFuel
deriving DecidableEq, Repr

/-- `run_indef`'s loop:

```c
while (!odp_atomic_load_u32(&gbl_args->exit_thread)) {
        int ret;
        if (bench->init != NULL) bench->init();
        ret = bench->run();
        if (bench->term != NULL) bench->term();
        if (!ret) ODPH_ABORT("Benchmark %s failed\n", desc);
}
``` -/
def run_indef_go (runRet : ℕ → Int) (exitFlag : ℕ → Bool) :
    ℕ → ℕ → DriverState → IndefOutcome
  | 0, _, _ => .outOfFuel
  | fuel + 1, cycles, st =>
    if exitFlag st.polls then
      .cancelled cycles ⟨st.polls + 1, st.runs, st.lines, st.bench_failed⟩
    else
      if runRet st.runs = 0 then
        .abortProc (cycles + 1) ⟨st.polls + 1, st.runs + 1, st.lines, st.bench_failed⟩
      else run_indef_go runRet exitFlag fuel (cycles + 1)
        ⟨st.polls + 1, st.runs + 1, st.lines, st.bench_failed⟩

/-- Outcome of the whole `run_benchmarks` body after EM init and pool
creation: both passes finished (`completed`, incl. finishing early because
the exit flag was observed), `goto exit` after a failed run (`failAbort`),
`run_indef` entered and finished (`indefEnd`), or fuel ran out. -/
inductive RBOutcome where
  | completed (st : DriverState)
  | failAbort (st : DriverState)
  | indefEnd (r : IndefOutcome)
  | outOfFuel
deriving DecidableEq, Repr

/-- The two-pass loop of `run_benchmarks` (bench_event.c lines 319-399):
`for (i = 0; i < 2; i++) { total = 0; round = 1; inner loop }`, where an
inner `goto exit` ends the whole execution. -/
def run_benchmarks_model (benches : List bench_info_t) (R bench_idx : ℕ)
    (runRet : ℕ → Int) (elapsed : ℕ → ℕ) (exitFlag : ℕ → Bool)
    (fuel : ℕ) : RBOutcome :=
  match pass_loop benches R bench_idx runRet elapsed exitFlag 0
      fuel 0 1 0 ⟨0, 0, [], 0⟩ with
  | .done st =>
    match pass_loop benches R bench_idx runRet elapsed exitFlag 1
        fuel 0 1 0 st with
    | .done st1 => .completed st1
    | .failAbort st1 => .failAbort st1
    | .indef _ st1 => .indefEnd (run_indef_go runRet exitFlag fuel 0 st1)
    | .outOfFuel => .outOfFuel
  | .failAbort st => .failAbort st
  | .indef _ st => .indefEnd (run_indef_go runRet exitFlag fuel 0 st)
  | .outOfFuel => .outOfFuel

/-- Exit status computed by `main` from `bench_failed`
(bench_event.c lines 1600-1602, 1638-1641):

```c
ret = gbl_args->bench_failed;
...
if (ret < 0) return EXIT_FAILURE;
return EXIT_SUCCESS;
```

`run_indef`'s `ODPH_ABORT` terminates the process abnormally (non-zero). -/
def main_status_model : RBOutcome → Option ℕ
  | .completed st => some (if st.bench_failed < 0 then 1 else 0)
  | .failAbort st => some (if st.bench_failed < 0 then 1 else 0)
  | .indefEnd (.cancelled _ st) => some (if st.bench_failed < 0 then 1 else 0)
  | .indefEnd (.abortProc _ _) => some 134
  | .indefEnd .outOfFuel => none
  | .outOfFuel => none

/-- `main` up to the worker: option validation first; a validation failure
exits (`EXIT_FAILURE`) before the header or any report line is printed.
Result: exit status and the report lines printed (`none` while the model is
out of fuel). -/
def main_model (opt : appl_opt) (benches : List bench_info_t)
    (runRet : ℕ → Int) (elapsed : ℕ → ℕ) (exitFlag : ℕ → Bool)
    (fuel : ℕ) : Option (ℕ × List (ℕ × ℚ)) :=
  match parse_args_validate opt benches.length with
  | .exitFail => some (1, [])
  | .err => some (1, [])
  | .ok =>
    let out := run_benchmarks_model benches opt.rounds opt.bench_idx.toNat
      runRet elapsed exitFlag fuel
    match out, main_status_model out with
    | .completed st, some s => some (s, st.lines)
    | .failAbort st, some s => some (s, st.lines)
    | .indefEnd (.cancelled _ st), some s => some (s, st.lines)
    | .indefEnd (.abortProc _ st), some s => some (s, st.lines)
    | _, _ => none

/-! ## Specification-side closed forms for the measurement loop

The inner loop advances to the next case when `round >= max_rounds`; the
`round = 1` reset together with the loop update `round++` makes a case that
is entered with round value `r` execute `M - r + 1` rounds (natural
subtraction; one round when `r ≥ M`). -/

/-- Number of rounds executed by a case entered at round value `round` with
effective ceiling `M`. -/
def case_cnt (M round : ℕ) : ℕ := M - round + 1

/-- Number of inner-loop iterations of one pass over the remaining cases,
entered at round value `round` (the first case of a pass is entered at 1,
every later case at 2). -/
def pass_iters (R : ℕ) : List bench_info_t → ℕ → ℕ
  | [], _ => 0
  | b :: rest, round =>
    case_cnt (effective_max_rounds R b) round + pass_iters R rest 2

/-- The report lines of a measured pass over the remaining cases: case `j`
(0-based) entered at round value `round` with the run counter at `u`
reports `(j + 1, (Σ elapsed of its rounds) / (M * REPEAT_COUNT))`. -/
def pass_lines (R : ℕ) (elapsed : ℕ → ℕ) :
    List bench_info_t → ℕ → ℕ → ℕ → List (ℕ × ℚ)
  | [], _, _, _ => []
  | b :: rest, j, round, u =>
    let M := effective_max_rounds R b
    let cnt := case_cnt M round
    (j + 1, (((Finset.range cnt).sum fun t => elapsed (u + t) : ℕ) : ℚ) /
        ((M * REPEAT_COUNT : ℕ) : ℚ)) ::
      pass_lines R elapsed rest (j + 1) 2 (u + cnt)

/-! ## Helper lemmas -/

/-- After `free_event_tbl`, every processed entry is `EM_EVENT_UNDEF`. -/
lemma free_event_tbl_undef (num : ℕ) :
    ∀ (tbl : List em_event_t) (i : ℕ), i < num →
      (free_event_tbl tbl num).1.getD i EM_EVENT_UNDEF = EM_EVENT_UNDEF := by
  induction num with
  | zero => intro tbl i h; omega
  | succ n ih =>
    intro tbl i h
    match tbl with
    | [] => simp [free_event_tbl]
    | e :: rest =>
      rw [free_event_tbl]
      by_cases he : e = EM_EVENT_UNDEF
      · simp only [he, ne_eq, not_true_eq_false, if_neg, not_false_eq_true]
        match i with
        | 0 => simp
        | i + 1 => simpa using ih rest i (by omega)
      · simp only [ne_eq, he, not_false_eq_true, if_pos]
        match i with
        | 0 => simp
        | i + 1 => simpa using ih rest i (by omega)

/-- `free_event_tbl` leaves a prefix that is already all-`EM_EVENT_UNDEF`
unchanged and frees nothing on it. -/
lemma free_event_tbl_noop (num : ℕ) :
    ∀ (tbl : List em_event_t),
      (∀ i, i < num → tbl.getD i EM_EVENT_UNDEF = EM_EVENT_UNDEF) →
      free_event_tbl tbl num = (tbl, []) := by
  induction num with
  | zero => intro tbl _; rw [free_event_tbl]
  | succ n ih =>
    intro tbl h
    match tbl with
    | [] => rw [free_event_tbl]
    | e :: rest =>
      have he : e = EM_EVENT_UNDEF := by simpa using h 0 (by omega)
      rw [free_event_tbl]
      have hr : free_event_tbl rest n = (rest, []) := by
        apply ih
        intro i hi
        simpa using h (i + 1) (by omega)
      simp [he, hr]

/-- With an allocator that always yields at least one event per call, the
acquisition loop completes: `d` more events needed, `d < fuel`. -/
lemma allocate_test_events_ones (num : ℕ) :
    ∀ (d fuel call num_events num_retries : ℕ),
      num = num_events + d → d < fuel →
      allocate_test_events (fun _ => 1) num fuel call num_events num_retries =
        .ok num := by
  intro d
  induction d with
  | zero =>
    intro fuel call num_events num_retries hnum hfuel
    match fuel with
    | f + 1 =>
      rw [allocate_test_events]
      simp [hnum]
  | succ d ih =>
    intro fuel call num_events num_retries hnum hfuel
    match fuel with
    | f + 1 =>
      rw [allocate_test_events]
      have hlt : num_events < num := by omega
      simp only [hlt, if_pos]
      norm_num
      exact ih f (call + 1) (num_events + 1) 0 (by omega) (by omega)

/-- With an allocator that always yields zero events, the loop aborts once
the retry counter exceeds `MAX_RETRY`: `d` retries left before the ceiling. -/
lemma allocate_test_events_zeros (num : ℕ) (hnum : 0 < num) :
    ∀ (d fuel call num_retries : ℕ),
      num_retries + d = MAX_RETRY → d < fuel →
      allocate_test_events (fun _ => 0) num fuel call 0 num_retries =
        .aborted (call + d + 1) := by
  intro d
  induction d with
  | zero =>
    intro fuel call num_retries hceil hfuel
    match fuel with
    | f + 1 =>
      rw [allocate_test_events]
      have : num_retries + 1 > MAX_RETRY := by omega
      simp [hnum, this]
  | succ d ih =>
    intro fuel call num_retries hceil hfuel
    match fuel with
    | f + 1 =>
      rw [allocate_test_events]
      have h2 : ¬ (num_retries + 1 > MAX_RETRY) := by
        simp only [MAX_RETRY] at hceil ⊢; omega
      simp only [hnum, if_pos, h2]
      norm_num
      have := ih f (call + 1) (num_retries + 1) (by omega) (by omega)
      rw [this]
      congr 1
      omega

/-- C8: `free_event_tbl` marks every released entry invalid
(`EM_EVENT_UNDEF`), releasing an already-invalid entry is a no-op, and
releasing the same table twice leaves the same state (and frees no further
event) — release is idempotent. -/
theorem free_event_tbl_invalidates_and_idempotent
    (tbl : List em_event_t) (num : ℕ) :
    (∀ i, i < num →
      (free_event_tbl tbl num).1.getD i EM_EVENT_UNDEF = EM_EVENT_UNDEF) ∧
    free_event_tbl (free_event_tbl tbl num).1 num =
      ((free_event_tbl tbl num).1, []) := by
  refine ⟨fun i hi => free_event_tbl_undef num tbl i hi, ?_⟩
  exact free_event_tbl_noop num _ (fun i hi => free_event_tbl_undef num tbl i hi)

/-- Witness for C8 at the concrete table `[5, 0, 7]`, `num = 3`. -/
theorem free_event_tbl_invalidates_and_idempotent_witness :
    (free_event_tbl [5, 0, 7] 3).1.getD 1 EM_EVENT_UNDEF = EM_EVENT_UNDEF ∧
    free_event_tbl (free_event_tbl [5, 0, 7] 3).1 3 =
      ((free_event_tbl [5, 0, 7] 3).1, []) := by
  have h := free_event_tbl_invalidates_and_idempotent [5, 0, 7] 3
  exact ⟨h.1 1 (by decide), h.2⟩

/-- C2 counterexample: an allocator that always returns exactly 1 event per
batch completes a request for 5000 events (after 5000 calls) — the loop does
not abort after 1024 (or any number of) single-event returns, because a
return of ≥ 1 resets the retry counter. -/
theorem allocate_test_events_ones_completes :
    allocate_test_events (fun _ => 1) 5000 5001 0 0 0 = .ok 5000 :=
  allocate_test_events_ones 5000 5000 5001 0 0 0 (by omega) (by omega)

/-- C2 amended: single-event returns never trip the retry ceiling — the
acquisition completes after `num` batches; the ceiling applies to
zero-event returns, where the loop aborts on the call that makes the retry
counter exceed `MAX_RETRY = 1024`, i.e. after 1025 consecutive zero
returns. -/
theorem allocate_test_events_retry_semantics (num fuel₁ fuel₂ : ℕ)
    (h₁ : num < fuel₁) (h₂ : 0 < num) (h₃ : MAX_RETRY < fuel₂) :
    allocate_test_events (fun _ => 1) num fuel₁ 0 0 0 = .ok num ∧
    allocate_test_events (fun _ => 0) num fuel₂ 0 0 0 =
      .aborted (MAX_RETRY + 1) := by
  constructor
  · exact allocate_test_events_ones num num fuel₁ 0 0 0 (by omega) h₁
  · have := allocate_test_events_zeros num h₂ MAX_RETRY fuel₂ 0 0 rfl h₃
    simpa using this

/-- Witness for C2's amended theorem at `num = 5000`. -/
theorem allocate_test_events_retry_semantics_witness :
    allocate_test_events (fun _ => 1) 5000 5001 0 0 0 = .ok 5000 ∧
    allocate_test_events (fun _ => 0) 5000 1026 0 0 0 =
      .aborted (MAX_RETRY + 1) :=
  allocate_test_events_retry_semantics 5000 5001 1026
    (by omega) (by omega) (by simp [MAX_RETRY])

/-- C7: a configured burst size outside 1..64 is rejected before any case
executes — `main` exits with status 1 (non-zero) and neither the header nor
any report line has been printed. -/
theorem invalid_burst_size_rejected (opt : appl_opt)
    (benches : List bench_info_t) (runRet : ℕ → Int) (elapsed : ℕ → ℕ)
    (exitFlag : ℕ → Bool) (fuel : ℕ)
    (h : opt.burst_size < 1 ∨ 64 < opt.burst_size) :
    main_model opt benches runRet elapsed exitFlag fuel = some (1, []) := by
  have hv : parse_args_validate opt benches.length = .exitFail := by
    rw [parse_args_validate, if_pos]
    rcases h with h | h
    · exact Or.inl h
    · exact Or.inr (by simpa [MAX_BURST] using h)
  rw [main_model, hv]

/-- Witness for C7 at burst sizes 0 and 65. -/
theorem invalid_burst_size_rejected_witness :
    main_model ⟨0, 0, 0, 1024, 1000, -1, 8⟩ [⟨0⟩] (fun _ => 1) (fun _ => 0)
      (fun _ => false) 10 = some (1, []) ∧
    main_model ⟨0, 0, 65, 1024, 1000, -1, 8⟩ [⟨0⟩] (fun _ => 1) (fun _ => 0)
      (fun _ => false) 10 = some (1, []) :=
  ⟨invalid_burst_size_rejected _ _ _ _ _ _ (by norm_num),
   invalid_burst_size_rejected _ _ _ _ _ _ (by norm_num)⟩

/-- C10: under the validated precondition `1 ≤ burst_size ≤ MAX_BURST`,
every table index used by the benchmark bodies is of the form
`i * burst_size + k` with `i < REPEAT_COUNT` and `k < burst_size`, and is
strictly below the table capacity `MAX_EVENTS = REPEAT_COUNT * MAX_BURST` —
no table access is out of bounds. -/
theorem bench_tbl_index_in_bounds (b n : ℕ) (hb1 : 1 ≤ b)
    (hb2 : b ≤ MAX_BURST) (hn : bench_tbl_index b n) :
    (∃ i k, i < REPEAT_COUNT ∧ k < b ∧ n = i * b + k) ∧ n < MAX_EVENTS := by
  simp only [MAX_BURST] at hb2
  have hform : ∃ i k, i < REPEAT_COUNT ∧ k < b ∧ n = i * b + k := by
    rcases hn with ⟨i, k, hi, hk, rfl⟩ | h | h
    · exact ⟨i, k, hi, hk, rfl⟩
    · refine ⟨n / b, n % b, ?_, Nat.mod_lt n hb1, ?_⟩
      · exact lt_of_le_of_lt (Nat.div_le_self n b) h
      · calc n = b * (n / b) + n % b := (Nat.div_add_mod n b).symm
        _ = n / b * b + n % b := by ring
    · refine ⟨n / b, n % b, ?_, Nat.mod_lt n hb1, ?_⟩
      · exact Nat.div_lt_of_lt_mul (by simpa [Nat.mul_comm] using h)
      · have := Nat.div_add_mod n b
        calc n = b * (n / b) + n % b := (Nat.div_add_mod n b).symm
        _ = n / b * b + n % b := by ring
  refine ⟨hform, ?_⟩
  rcases hform with ⟨i, k, hi, hk, rfl⟩
  simp only [REPEAT_COUNT] at hi
  simp only [MAX_EVENTS, REPEAT_COUNT, MAX_BURST]
  calc i * b + k < i * b + b := by omega
  _ = (i + 1) * b := by ring
  _ ≤ 1000 * b := by
    have : i + 1 ≤ 1000 := by omega
    exact Nat.mul_le_mul_right b this
  _ ≤ 1000 * 64 := by
    exact Nat.mul_le_mul_left 1000 hb2

/-- Witness for C10 at `burst_size = 64` and the largest multi index
`999 * 64 + 63 = 63999`. -/
theorem bench_tbl_index_in_bounds_witness :
    (∃ i k, i < REPEAT_COUNT ∧ k < 64 ∧ 63999 = i * 64 + k) ∧
      63999 < MAX_EVENTS :=
  bench_tbl_index_in_bounds 64 63999 (by omega) (by decide)
    (Or.inl ⟨999, 63, by decide, by decide, by decide⟩)

/-- `run_indef` with the exit flag raised from the `k`-th poll on: with `d`
iterations left before the flag is seen, the loop completes exactly `d` more
cycles and is cancelled. -/
lemma run_indef_go_cancel (runRet : ℕ → Int) (k : ℕ)
    (hrun : ∀ n, runRet n ≠ 0) :
    ∀ (d fuel cycles : ℕ) (st : DriverState),
      st.polls = cycles → k = cycles + d → d < fuel →
      run_indef_go runRet (fun n => decide (k ≤ n)) fuel cycles st =
        .cancelled k ⟨k + 1, st.runs + d, st.lines, st.bench_failed⟩ := by
  intro d
  induction d with
  | zero =>
    intro fuel cycles st hpolls hk hfuel
    match fuel with
    | f + 1 =>
      rw [run_indef_go]
      have : (fun n => decide (k ≤ n)) st.polls = true := by
        simp [hpolls, hk]
      rw [if_pos this]
      simp only [IndefOutcome.cancelled.injEq]
      refine ⟨by omega, ?_⟩
      have : st.polls + 1 = k + 1 := by omega
      simp [this]
  | succ d ih =>
    intro fuel cycles st hpolls hk hfuel
    match fuel with
    | f + 1 =>
      rw [run_indef_go]
      have hflag : (fun n => decide (k ≤ n)) st.polls = false := by
        simp only [decide_eq_false_iff_not, not_le]
        omega
      rw [if_neg (by simp [hflag])]
      rw [if_neg (hrun st.runs)]
      have := ih f (cycles + 1)
        ⟨st.polls + 1, st.runs + 1, st.lines, st.bench_failed⟩
        (by simp [hpolls]) (by omega) (by omega)
      rw [this]
      simp only [IndefOutcome.cancelled.injEq, DriverState.mk.injEq,
        true_and, and_true]
      omega

/-- C6: in indefinite mode the exit flag is polled before each iteration;
if cancellation is requested after exactly `k` completed iterations (the
flag reads false at the first `k` polls, true from then on) and every run
succeeds, `run_indef` performs exactly `k` `init → run → term` cycles
(`k` run invocations), does not start a `(k+1)`-th iteration, and exits via
cancellation (not via the failure abort). -/
theorem run_indef_cancelled_after_k (k fuel runs₀ : ℕ)
    (runRet : ℕ → Int) (lines : List (ℕ × ℚ)) (bf : Int)
    (hrun : ∀ n, runRet n ≠ 0) (hfuel : k < fuel) :
    run_indef_go runRet (fun n => decide (k ≤ n)) fuel 0
      ⟨0, runs₀, lines, bf⟩ =
      .cancelled k ⟨k + 1, runs₀ + k, lines, bf⟩ :=
  run_indef_go_cancel runRet k hrun k fuel 0 ⟨0, runs₀, lines, bf⟩
    rfl (by omega) hfuel

/-- Witness for C6 at `k = 3`: exactly 3 cycles, the 4th never starts. -/
theorem run_indef_cancelled_after_k_witness :
    run_indef_go (fun _ => 1) (fun n => decide (3 ≤ n)) 4 0 ⟨0, 0, [], 0⟩ =
      .cancelled 3 ⟨4, 3, [], 0⟩ := by
  have h := run_indef_cancelled_after_k 3 4 0 (fun _ => 1) [] 0
    (fun _ => one_ne_zero) (by omega)
  simpa using h

/-- `bench_failed` bookkeeping of the inner loop: a pass that ends normally
or enters indefinite mode leaves `bench_failed` unchanged, and the abort
path sets it to `-1` (the only write, bench_event.c line 365). -/
lemma pass_loop_bench_failed (benches : List bench_info_t)
    (R bench_idx : ℕ) (runRet : ℕ → Int) (elapsed : ℕ → ℕ)
    (exitFlag : ℕ → Bool) (pass : ℕ) :
    ∀ (fuel j round total : ℕ) (st : DriverState),
      (∀ st', pass_loop benches R bench_idx runRet elapsed exitFlag pass
          fuel j round total st = .done st' →
        st'.bench_failed = st.bench_failed) ∧
      (∀ jj st', pass_loop benches R bench_idx runRet elapsed exitFlag pass
          fuel j round total st = .indef jj st' →
        st'.bench_failed = st.bench_failed) ∧
      (∀ st', pass_loop benches R bench_idx runRet elapsed exitFlag pass
          fuel j round total st = .failAbort st' →
        st'.bench_failed = -1) := by
  intro fuel
  induction fuel with
  | zero =>
    intro j round total st
    refine ⟨fun st' h => ?_, fun jj st' h => ?_, fun st' h => ?_⟩ <;>
      simp [pass_loop] at h
  | succ f ih =>
    intro j round total st
    rw [pass_loop]
    by_cases hj : j < benches.length
    · rw [if_pos hj]
      by_cases hex : exitFlag st.polls
      · rw [if_pos hex]
        refine ⟨fun st' h => ?_, fun jj st' h => ?_, fun st' h => ?_⟩ <;>
          first
            | (injection h with h1; rw [← h1])
            | exact absurd h (by simp)
      · rw [if_neg hex]
        by_cases hbi : bench_idx ≠ 0
        · rw [if_pos hbi]
          by_cases hji : j + 1 ≠ bench_idx
          · rw [if_pos hji]
            exact ih (j + 1) (round + 1) total _
          · rw [if_neg hji]
            refine ⟨fun st' h => ?_, fun jj st' h => ?_, fun st' h => ?_⟩ <;>
              first
                | (injection h with h1 h2; rw [← h2])
                | exact absurd h (by simp)
        · rw [if_neg hbi]
          by_cases hret : runRet st.runs = 0
          · rw [if_pos hret]
            refine ⟨fun st' h => ?_, fun jj st' h => ?_, fun st' h => ?_⟩ <;>
              first
                | (injection h with h1; rw [← h1])
                | exact absurd h (by simp)
          · rw [if_neg hret]
            by_cases hadv : round ≥ effective_max_rounds R (benches.getD j ⟨0⟩)
            · rw [if_pos hadv]
              exact ih (j + 1) (1 + 1) 0 _
            · rw [if_neg hadv]
              exact ih j (round + 1) _ _
    · rw [if_neg hj]
      refine ⟨fun st' h => ?_, fun jj st' h => ?_, fun st' h => ?_⟩ <;>
        first
          | (injection h with h1; rw [← h1])
          | exact absurd h (by simp)

/-- `run_indef` never touches `bench_failed`: cancellation leaves it as it
was. -/
lemma run_indef_go_bench_failed (runRet : ℕ → Int) (exitFlag : ℕ → Bool) :
    ∀ (fuel cycles : ℕ) (st : DriverState) (c : ℕ) (st' : DriverState),
      run_indef_go runRet exitFlag fuel cycles st = .cancelled c st' →
      st'.bench_failed = st.bench_failed := by
  intro fuel
  induction fuel with
  | zero => intro cycles st c st' h; simp [run_indef_go] at h
  | succ f ih =>
    intro cycles st c st' h
    rw [run_indef_go] at h
    by_cases hex : exitFlag st.polls
    · rw [if_pos hex] at h
      injection h with h1 h2
      rw [← h2]
    · rw [if_neg hex] at h
      by_cases hret : runRet st.runs = 0
      · rw [if_pos hret] at h; exact absurd h (by simp)
      · rw [if_neg hret] at h
        exact ih (cycles + 1)
          ⟨st.polls + 1, st.runs + 1, st.lines, st.bench_failed⟩ c st' h

/-- C9: if no run invocation returned failure — the execution ended in the
`completed` state (normal mode, whether cancelled mid-run or fully done) or
was cancelled out of indefinite mode — the exit status `main` derives from
`bench_failed` is 0: the cancelled terminal state is indistinguishable from
full completion at the exit-status interface, because only a failed run
writes `bench_failed`. -/
theorem cancelled_exit_status_zero (benches : List bench_info_t)
    (R bench_idx fuel : ℕ) (runRet : ℕ → Int) (elapsed : ℕ → ℕ)
    (exitFlag : ℕ → Bool) :
    (∀ st, run_benchmarks_model benches R bench_idx runRet elapsed exitFlag
        fuel = .completed st →
      main_status_model (.completed st) = some 0) ∧
    (∀ c st, run_benchmarks_model benches R bench_idx runRet elapsed exitFlag
        fuel = .indefEnd (.cancelled c st) →
      main_status_model (.indefEnd (.cancelled c st)) = some 0) := by
  have key1 : ∀ st, run_benchmarks_model benches R bench_idx runRet elapsed
      exitFlag fuel = .completed st → st.bench_failed = 0 := by
    intro st h
    rw [run_benchmarks_model] at h
    split at h
    case _ st0 heq0 =>
      have hbf0 : st0.bench_failed = 0 :=
        (pass_loop_bench_failed benches R bench_idx runRet elapsed exitFlag 0
          fuel 0 1 0 ⟨0, 0, [], 0⟩).1 st0 heq0
      split at h
      case _ st1 heq1 =>
        injection h with h2
        rw [← h2]
        rw [(pass_loop_bench_failed benches R bench_idx runRet elapsed
          exitFlag 1 fuel 0 1 0 st0).1 st1 heq1]
        exact hbf0
      case _ => simp at h
      case _ => simp at h
      case _ => simp at h
    case _ => simp at h
    case _ => simp at h
    case _ => simp at h
  have key2 : ∀ c st, run_benchmarks_model benches R bench_idx runRet elapsed
      exitFlag fuel = .indefEnd (.cancelled c st) → st.bench_failed = 0 := by
    intro c st h
    rw [run_benchmarks_model] at h
    split at h
    case _ st0 heq0 =>
      have hbf0 : st0.bench_failed = 0 :=
        (pass_loop_bench_failed benches R bench_idx runRet elapsed exitFlag 0
          fuel 0 1 0 ⟨0, 0, [], 0⟩).1 st0 heq0
      split at h
      case _ => simp at h
      case _ => simp at h
      case _ j1 st1 heq1 =>
        have hbf1 : st1.bench_failed = 0 :=
          hbf0 ▸ (pass_loop_bench_failed benches R bench_idx runRet elapsed
            exitFlag 1 fuel 0 1 0 st0).2.1 j1 st1 heq1
        injection h with h2
        rw [run_indef_go_bench_failed runRet exitFlag fuel 0 st1 c st h2]
        exact hbf1
      case _ => simp at h
    case _ => simp at h
    case _ j0 st0 heq0 =>
      have hbf0 : st0.bench_failed = 0 :=
        (pass_loop_bench_failed benches R bench_idx runRet elapsed exitFlag 0
          fuel 0 1 0 ⟨0, 0, [], 0⟩).2.1 j0 st0 heq0
      injection h with h2
      rw [run_indef_go_bench_failed runRet exitFlag fuel 0 st0 c st h2]
      exact hbf0
    case _ => simp at h
  refine ⟨fun st h => ?_, fun c st h => ?_⟩
  · have := key1 st h
    simp [main_status_model, this]
  · have := key2 c st h
    simp [main_status_model, this]

/-- Witness for C9: a run cancelled before any case (normal mode,
`exit_thread` set from the start) and an indefinite-mode run cancelled after
0 cycles both map to exit status 0. -/
theorem cancelled_exit_status_zero_witness :
    main_status_model (.completed ⟨2, 0, [], 0⟩) = some 0 ∧
    main_status_model (.indefEnd (.cancelled 0 ⟨2, 0, [], 0⟩)) = some 0 := by
  constructor
  · exact (cancelled_exit_status_zero [⟨0⟩] 1 0 3 (fun _ => 1) (fun _ => 0)
      (fun _ => true)).1 ⟨2, 0, [], 0⟩
      (by simp [run_benchmarks_model, pass_loop])
  · exact (cancelled_exit_status_zero [⟨0⟩] 1 1 5 (fun _ => 1) (fun _ => 0)
      (fun n => decide (1 ≤ n))).2 0 ⟨2, 0, [], 0⟩
      (by simp [run_benchmarks_model, pass_loop, run_indef_go])

/-- C4 (evidence of the round-count slip): two cases with `max_rounds = 0`
and configured rounds `R = 3` (effective ceiling 3 for both), every run
succeeding with per-round elapsed 1.  The claimed behaviour is 3 measured
rounds per case — 12 `run()` invocations over the two passes and a second
average of `3/3000`.  The code executes only 10 invocations (3 + 2 per
pass) and reports `2/3000 = 1/1500` for the second case: the advance branch
resets `round = 1` but the loop update `round++` makes every case after the
first of a pass start at round value 2, losing one round, while the average
still divides by the full ceiling. -/
theorem later_case_loses_a_round :
    run_benchmarks_model [⟨0⟩, ⟨0⟩] 3 0 (fun _ => 1) (fun _ => 1)
      (fun _ => false) 12 =
      .completed ⟨10, 10, [(1, 1/1000), (2, 1/1500)], 0⟩ := by
  simp [run_benchmarks_model, pass_loop, effective_max_rounds, REPEAT_COUNT]
  norm_num

/-- C1 counterexample: the first `run()` invocation returns `-1`
(non-positive), yet the execution is not aborted — both cases run in both
passes (4 invocations), both report lines appear, `bench_failed` stays 0
and the exit status is 0.  The driver's failure test `if (!ret)` fires only
on a zero return. -/
theorem negative_run_return_not_failure :
    run_benchmarks_model [⟨0⟩, ⟨0⟩] 1 0 (fun n => if n = 0 then -1 else 1)
      (fun _ => 0) (fun _ => false) 6 =
      .completed ⟨4, 4, [(1, 0), (2, 0)], 0⟩ ∧
    main_status_model (.completed ⟨4, 4, [(1, 0), (2, 0)], 0⟩) = some 0 := by
  constructor
  · simp [run_benchmarks_model, pass_loop, effective_max_rounds, REPEAT_COUNT]
  · simp [main_status_model]

/-- The `failAbort` path always leaves `bench_failed = -1`. -/
lemma run_benchmarks_failAbort_bf (benches : List bench_info_t)
    (R bench_idx fuel : ℕ) (runRet : ℕ → Int) (elapsed : ℕ → ℕ)
    (exitFlag : ℕ → Bool) (st' : DriverState)
    (h : run_benchmarks_model benches R bench_idx runRet elapsed exitFlag
      fuel = .failAbort st') :
    st'.bench_failed = -1 := by
  rw [run_benchmarks_model] at h
  split at h
  case _ st0 heq0 =>
    split at h
    case _ => simp at h
    case _ st1 heq1 =>
      injection h with h2
      rw [← h2]
      exact (pass_loop_bench_failed benches R bench_idx runRet elapsed
        exitFlag 1 fuel 0 1 0 st0).2.2 st1 heq1
    case _ => simp at h
    case _ => simp at h
  case _ st0 heq0 =>
    injection h with h2
    rw [← h2]
    exact (pass_loop_bench_failed benches R bench_idx runRet elapsed
      exitFlag 0 fuel 0 1 0 ⟨0, 0, [], 0⟩).2.2 st0 heq0
  case _ => simp at h
  case _ => simp at h

/-- C1 amended: in the normal two-pass loop a **zero** run return is fatal —
the iteration immediately takes the abort path, recording the case as
failed (`bench_failed = -1`); a `failAbort` of the warm-up pass is the
outcome of the whole execution (no further case, round or pass runs); and
`main` maps any `failAbort` outcome to exit status 1.  (Negative returns
are not detected, see the counterexample.) -/
theorem zero_run_return_aborts (benches : List bench_info_t)
    (R : ℕ) (runRet : ℕ → Int) (elapsed : ℕ → ℕ) (exitFlag : ℕ → Bool)
    (pass fuel j round total : ℕ) (st : DriverState)
    (hj : j < benches.length) (hex : exitFlag st.polls = false)
    (hret : runRet st.runs = 0) :
    pass_loop benches R 0 runRet elapsed exitFlag pass (fuel + 1) j round
      total st = .failAbort ⟨st.polls + 1, st.runs + 1, st.lines, -1⟩ ∧
    (∀ st', pass_loop benches R 0 runRet elapsed exitFlag 0 fuel 0 1 0
        ⟨0, 0, [], 0⟩ = .failAbort st' →
      run_benchmarks_model benches R 0 runRet elapsed exitFlag fuel =
        .failAbort st') ∧
    (∀ st', run_benchmarks_model benches R 0 runRet elapsed exitFlag fuel =
        .failAbort st' → main_status_model (.failAbort st') = some 1) := by
  refine ⟨?_, ?_, ?_⟩
  · rw [pass_loop, if_pos hj, if_neg (by simp [hex]),
      if_neg (by simp : ¬ (0 : ℕ) ≠ 0), if_pos hret]
  · intro st' h
    rw [run_benchmarks_model, h]
  · intro st' h
    have hbf := run_benchmarks_failAbort_bf benches R 0 fuel runRet elapsed
      exitFlag st' h
    simp [main_status_model, hbf]

/-- Witness for C1's amended theorem: a single case whose run returns 0. -/
theorem zero_run_return_aborts_witness :
    pass_loop [⟨0⟩] 1 0 (fun _ => 0) (fun _ => 0) (fun _ => false) 0 2 0 1 0
      ⟨0, 0, [], 0⟩ = .failAbort ⟨1, 1, [], -1⟩ ∧
    run_benchmarks_model [⟨0⟩] 1 0 (fun _ => 0) (fun _ => 0) (fun _ => false)
      2 = .failAbort ⟨1, 1, [], -1⟩ ∧
    main_status_model (.failAbort ⟨1, 1, [], -1⟩) = some 1 := by
  have h := zero_run_return_aborts [⟨0⟩] 1 (fun _ => 0) (fun _ => 0)
    (fun _ => false) 0 1 0 1 0 ⟨0, 0, [], 0⟩ (by decide) rfl rfl
  have h2 := h.2.1 ⟨1, 1, [], -1⟩ h.1
  exact ⟨h.1, h2, h.2.2 ⟨1, 1, [], -1⟩ h2⟩

/-- Collapsing one case of the inner loop: entered at round value `round`
with `gap = M - round`, a case executes `gap + 1` rounds (polling the flag
and invoking `run` once per round, accumulating the elapsed values into
`total`) and then advances, appending — in the measured pass — the report
line `(j + 1, (total + Σ elapsed) / (M * REPEAT_COUNT))` and resetting
`total` to 0 and `round` to 1 (which the loop update turns into 2). -/
lemma pass_loop_case_adv (benches : List bench_info_t) (R : ℕ)
    (runRet : ℕ → Int) (elapsed : ℕ → ℕ) (exitFlag : ℕ → Bool) (pass : ℕ)
    (hex : ∀ n, exitFlag n = false) (hrun : ∀ n, runRet n ≠ 0)
    (j : ℕ) (hj : j < benches.length) :
    ∀ (gap round total : ℕ) (st : DriverState) (fuel : ℕ),
      effective_max_rounds R (benches.getD j ⟨0⟩) - round = gap →
      pass_loop benches R 0 runRet elapsed exitFlag pass (fuel + (gap + 1))
        j round total st =
      pass_loop benches R 0 runRet elapsed exitFlag pass fuel (j + 1) (1 + 1)
        0 ⟨st.polls + (gap + 1), st.runs + (gap + 1),
         st.lines ++
           (if pass > 0 then
             [(j + 1, ((total + (Finset.range (gap + 1)).sum
                 (fun t => elapsed (st.runs + t)) : ℕ) : ℚ) /
               ((effective_max_rounds R (benches.getD j ⟨0⟩) *
                 REPEAT_COUNT : ℕ) : ℚ))]
            else []),
         st.bench_failed⟩ := by
  intro gap
  induction gap with
  | zero =>
    intro round total st fuel hgap
    have hadv : round ≥ effective_max_rounds R (benches.getD j ⟨0⟩) := by
      omega
    rw [show fuel + (0 + 1) = fuel + 1 from by omega]
    rw [pass_loop, if_pos hj, if_neg (by simp [hex]),
      if_neg (by simp : ¬ (0 : ℕ) ≠ 0), if_neg (hrun st.runs), if_pos hadv]
    simp [Finset.sum_range_one]
  | succ gap ih =>
    intro round total st fuel hgap
    have hlt : ¬ round ≥ effective_max_rounds R (benches.getD j ⟨0⟩) := by
      omega
    rw [show fuel + (gap + 1 + 1) = (fuel + (gap + 1)) + 1 from by omega]
    rw [pass_loop, if_pos hj, if_neg (by simp [hex]),
      if_neg (by simp : ¬ (0 : ℕ) ≠ 0), if_neg (hrun st.runs), if_neg hlt]
    rw [ih (round + 1) (total + elapsed st.runs)
      ⟨st.polls + 1, st.runs + 1, st.lines, st.bench_failed⟩ fuel (by omega)]
    congr 1
    have hsum : total + elapsed st.runs +
        (Finset.range (gap + 1)).sum (fun t => elapsed (st.runs + 1 + t)) =
        total + (Finset.range (gap + 1 + 1)).sum
          (fun t => elapsed (st.runs + t)) := by
      rw [Finset.sum_range_succ' (fun t => elapsed (st.runs + t)) (gap + 1)]
      have hcg : (Finset.range (gap + 1)).sum
          (fun t => elapsed (st.runs + 1 + t)) =
          (Finset.range (gap + 1)).sum
            (fun t => elapsed (st.runs + (t + 1))) :=
        Finset.sum_congr rfl (fun t _ => congrArg elapsed (by omega))
      rw [hcg]
      simp only [Nat.add_zero]
      omega
    simp only [DriverState.mk.injEq, and_true]
    refine ⟨by omega, by omega, ?_⟩
    by_cases hp : pass > 0
    · simp only [hp, if_pos]
      rw [hsum]
    · simp only [hp, if_neg, not_false_eq_true]

/-- A full pass with the exit flag never set, every run succeeding and no
single-case index: starting at case `j` (with `benches.drop j = rem`) and
round value `round`, the loop consumes `pass_iters R rem round` iterations,
finishes the pass, and — in the measured pass — appends exactly the report
lines `pass_lines R elapsed rem j round st.runs`. -/
lemma pass_loop_runs_all (benches : List bench_info_t) (R : ℕ)
    (runRet : ℕ → Int) (elapsed : ℕ → ℕ) (exitFlag : ℕ → Bool) (pass : ℕ)
    (hex : ∀ n, exitFlag n = false) (hrun : ∀ n, runRet n ≠ 0) :
    ∀ (rem : List bench_info_t) (j round : ℕ) (st : DriverState) (fuel : ℕ),
      List.drop j benches = rem →
      pass_loop benches R 0 runRet elapsed exitFlag pass
        (pass_iters R rem round + (fuel + 1)) j round 0 st =
      .done ⟨st.polls + pass_iters R rem round,
             st.runs + pass_iters R rem round,
             st.lines ++ (if pass > 0 then
               pass_lines R elapsed rem j round st.runs else []),
             st.bench_failed⟩ := by
  intro rem
  induction rem with
  | nil =>
    intro j round st fuel hdrop
    have hj : ¬ j < benches.length := by
      have hlen := congrArg List.length hdrop
      simp only [List.length_drop, List.length_nil] at hlen
      omega
    rw [pass_iters]
    rw [show (0 : ℕ) + (fuel + 1) = fuel + 1 from by omega]
    rw [pass_loop, if_neg hj]
    simp [pass_lines]
  | cons b rest ih =>
    intro j round st fuel hdrop
    have hlen := congrArg List.length hdrop
    simp only [List.length_drop, List.length_cons] at hlen
    have hj : j < benches.length := by omega
    have hget : benches.getD j ⟨0⟩ = b := by
      have h0 : benches[j]? = some b := by
        have h1 := List.getElem?_drop benches j 0
        rw [hdrop] at h1
        simpa using h1.symm
      rw [List.getD_eq_getElem?_getD, h0]
      rfl
    have hdrop1 : List.drop (j + 1) benches = rest := by
      have h1 : List.drop 1 (List.drop j benches) = rest := by rw [hdrop]; rfl
      rwa [List.drop_drop] at h1
    rw [pass_iters]
    rw [show case_cnt (effective_max_rounds R b) round +
          pass_iters R rest 2 + (fuel + 1) =
        (pass_iters R rest 2 + (fuel + 1)) +
          ((effective_max_rounds R b - round) + 1) from by
      simp only [case_cnt]; omega]
    rw [show effective_max_rounds R b - round =
        effective_max_rounds R (benches.getD j ⟨0⟩) - round from by
      rw [hget]]
    rw [pass_loop_case_adv benches R runRet elapsed exitFlag pass hex hrun
      j hj _ round 0 st (pass_iters R rest 2 + (fuel + 1)) rfl]
    rw [show (1 : ℕ) + 1 = 2 from rfl]
    rw [ih (j + 1) 2 _ fuel hdrop1]
    simp only [PassOutcome.done.injEq, DriverState.mk.injEq, and_true]
    rw [hget]
    refine ⟨by simp [case_cnt]; omega, by simp [case_cnt]; omega, ?_⟩
    by_cases hp : pass > 0
    · simp only [hp, if_pos]
      rw [pass_lines]
      simp only [List.append_assoc, List.singleton_append, Nat.zero_add]
      rfl
    · simp [hp]

/-- The case indices of a measured pass's report lines: one line per
remaining case, in order, indexed `j + 1, j + 2, ...`. -/
lemma pass_lines_map_fst (R : ℕ) (elapsed : ℕ → ℕ) :
    ∀ (rem : List bench_info_t) (j round u : ℕ),
      (pass_lines R elapsed rem j round u).map Prod.fst =
        (List.range rem.length).map (fun t => j + t + 1) := by
  intro rem
  induction rem with
  | nil => intro j round u; simp [pass_lines]
  | cons b rest ih =>
    intro j round u
    rw [pass_lines]
    simp only [List.map_cons, List.length_cons, List.range_succ_eq_map,
      List.map_map]
    congr 1
    rw [ih (j + 1) 2 _]
    apply List.map_congr_left
    intro t _
    simp only [Function.comp_apply]
    omega

/-- C5: a normal full run (no single-case index, exit flag never set, every
run succeeding) emits nothing during the warm-up pass — pass 0 ends with no
report lines — and the whole execution completes with exactly the measured
pass's lines: one line per registry case, in registry order, carrying the
1-based case index. -/
theorem warmup_discarded_measured_reported (benches : List bench_info_t)
    (R fuel : ℕ) (runRet : ℕ → Int) (elapsed : ℕ → ℕ)
    (hrun : ∀ n, runRet n ≠ 0) :
    pass_loop benches R 0 runRet elapsed (fun _ => false) 0
      (pass_iters R benches 1 + (fuel + 1)) 0 1 0 ⟨0, 0, [], 0⟩ =
      .done ⟨pass_iters R benches 1, pass_iters R benches 1, [], 0⟩ ∧
    run_benchmarks_model benches R 0 runRet elapsed (fun _ => false)
      (pass_iters R benches 1 + (fuel + 1)) =
      .completed ⟨pass_iters R benches 1 + pass_iters R benches 1,
        pass_iters R benches 1 + pass_iters R benches 1,
        pass_lines R elapsed benches 0 1 (pass_iters R benches 1), 0⟩ ∧
    (pass_lines R elapsed benches 0 1 (pass_iters R benches 1)).map
        Prod.fst = (List.range benches.length).map (fun t => t + 1) := by
  have hex : ∀ n, (fun _ : ℕ => false) n = false := fun _ => rfl
  have h0 := pass_loop_runs_all benches R runRet elapsed (fun _ => false) 0
    hex hrun benches 0 1 ⟨0, 0, [], 0⟩ fuel rfl
  simp only [Nat.zero_add, gt_iff_lt, Nat.lt_irrefl, if_false,
    List.append_nil] at h0
  have h1 := pass_loop_runs_all benches R runRet elapsed (fun _ => false) 1
    hex hrun benches 0 1
    ⟨pass_iters R benches 1, pass_iters R benches 1, [], 0⟩ fuel rfl
  simp only [gt_iff_lt, Nat.zero_lt_one, if_true, List.nil_append] at h1
  refine ⟨h0, ?_, ?_⟩
  · rw [run_benchmarks_model]
    simp only [h0, h1]
  · rw [pass_lines_map_fst]
    apply List.map_congr_left
    intro t _
    omega

/-- Witness for C5 at a one-case registry with `R = 1`. -/
theorem warmup_discarded_measured_reported_witness :
    pass_loop [⟨0⟩] 1 0 (fun _ => 1) (fun _ => 5) (fun _ => false) 0
      (pass_iters 1 [⟨0⟩] 1 + (0 + 1)) 0 1 0 ⟨0, 0, [], 0⟩ =
      .done ⟨pass_iters 1 [⟨0⟩] 1, pass_iters 1 [⟨0⟩] 1, [], 0⟩ ∧
    run_benchmarks_model [⟨0⟩] 1 0 (fun _ => 1) (fun _ => 5) (fun _ => false)
      (pass_iters 1 [⟨0⟩] 1 + (0 + 1)) =
      .completed ⟨pass_iters 1 [⟨0⟩] 1 + pass_iters 1 [⟨0⟩] 1,
        pass_iters 1 [⟨0⟩] 1 + pass_iters 1 [⟨0⟩] 1,
        pass_lines 1 (fun _ => 5) [⟨0⟩] 0 1 (pass_iters 1 [⟨0⟩] 1), 0⟩ ∧
    (pass_lines 1 (fun _ => 5) [⟨0⟩] 0 1 (pass_iters 1 [⟨0⟩] 1)).map
        Prod.fst = (List.range (List.length [(⟨0⟩ : bench_info_t)])).map
        (fun t => t + 1) :=
  warmup_discarded_measured_reported [⟨0⟩] 1 0 (fun _ => 1) (fun _ => 5)
    (fun _ => one_ne_zero)

/-- C3: in the measured pass, once a case's effective round ceiling
`M = effective_max_rounds R bench` is reached, the case advances and the
reported average is exactly the accumulated elapsed total of the case's
executed rounds (`total` enters the case as 0) divided by
`M * REPEAT_COUNT`; the running total is reset to 0 for the next case. -/
theorem reported_average_formula (benches : List bench_info_t) (R : ℕ)
    (runRet : ℕ → Int) (elapsed : ℕ → ℕ) (exitFlag : ℕ → Bool)
    (j round fuel : ℕ) (st : DriverState)
    (hex : ∀ n, exitFlag n = false) (hrun : ∀ n, runRet n ≠ 0)
    (hj : j < benches.length) :
    pass_loop benches R 0 runRet elapsed exitFlag 1
      (fuel + case_cnt (effective_max_rounds R (benches.getD j ⟨0⟩)) round)
      j round 0 st =
    pass_loop benches R 0 runRet elapsed exitFlag 1 fuel (j + 1) (1 + 1) 0
      ⟨st.polls +
        case_cnt (effective_max_rounds R (benches.getD j ⟨0⟩)) round,
       st.runs +
        case_cnt (effective_max_rounds R (benches.getD j ⟨0⟩)) round,
       st.lines ++ [(j + 1,
         (((Finset.range (case_cnt (effective_max_rounds R
             (benches.getD j ⟨0⟩)) round)).sum
           (fun t => elapsed (st.runs + t)) : ℕ) : ℚ) /
         ((effective_max_rounds R (benches.getD j ⟨0⟩) *
           REPEAT_COUNT : ℕ) : ℚ))],
       st.bench_failed⟩ := by
  have h := pass_loop_case_adv benches R runRet elapsed exitFlag 1 hex hrun
    j hj (effective_max_rounds R (benches.getD j ⟨0⟩) - round) round 0 st
    fuel rfl
  simp only [case_cnt, gt_iff_lt, Nat.zero_lt_one, if_true,
    Nat.zero_add] at h ⊢
  exact h

/-- Witness for C3: one case, `R = 2` (ceiling 2), constant elapsed 7 per
round — the reported average is `(7 + 7) / (2 * 1000)`. -/
theorem reported_average_formula_witness :
    pass_loop [⟨0⟩] 2 0 (fun _ => 1) (fun _ => 7) (fun _ => false) 1
      (1 + case_cnt (effective_max_rounds 2 (List.getD [⟨0⟩] 0 ⟨0⟩)) 1)
      0 1 0 ⟨0, 0, [], 0⟩ =
    pass_loop [⟨0⟩] 2 0 (fun _ => 1) (fun _ => 7) (fun _ => false) 1 1
      (0 + 1) (1 + 1) 0
      ⟨0 + case_cnt (effective_max_rounds 2 (List.getD [⟨0⟩] 0 ⟨0⟩)) 1,
       0 + case_cnt (effective_max_rounds 2 (List.getD [⟨0⟩] 0 ⟨0⟩)) 1,
       [] ++ [(0 + 1,
         (((Finset.range (case_cnt (effective_max_rounds 2
             (List.getD [⟨0⟩] 0 ⟨0⟩)) 1)).sum
           (fun t => (fun _ : ℕ => 7) (0 + t)) : ℕ) : ℚ) /
         ((effective_max_rounds 2 (List.getD [⟨0⟩] 0 ⟨0⟩) *
           REPEAT_COUNT : ℕ) : ℚ))],
       0⟩ :=
  reported_average_formula [⟨0⟩] 2 (fun _ => 1) (fun _ => 7) (fun _ => false)
    0 1 1 ⟨0, 0, [], 0⟩ (fun _ => rfl) (fun _ => one_ne_zero) (by decide)
